import Mathlib

/-!
Shallow embedding of the vegas-rs Monte Carlo spin-simulation engine.

The Rust sources are translated as follows.

* `f64` arithmetic on temperatures, fields and Ising energies is modelled by
  exact rational arithmetic (`ℚ`); `f64::EPSILON` becomes the rational
  constant `eps = 2 ^ (-52)`.  Heisenberg spins and the Metropolis/Wolff
  acceptance tests involve `sqrt`/`exp`, so those parts are modelled over `ℝ`.
* Random number generators are modelled by explicit streams of draws: a
  stream of naturals for site sampling (a uniform draw over `[0, n)` is the
  draw reduced `% n`), a stream of proposed spins, and a stream of rationals
  or reals in `[0, 1)` for acceptance tests.
* Fallible operations return `Option`; a Rust panic is `none`.  In
  particular `rand`'s `Uniform::new(lo, hi)` errs exactly when `lo ≥ hi`,
  and the integrators unwrap that error with `expect`.
* The `Machine` (src/machine.rs) owns a thermostat and dispatches
  `set_thermostat`, `relax_for` and `measure_for`; programs only interact
  with it through those three operations, which always succeed when the
  instrument list is empty.  The machine is therefore modelled by its
  thermostat (temperature and field magnitude) together with the trace of
  operations invoked on it, and `relax_for`/`measure_for` append trace
  events.  Loops in programs (src/program.rs) are modelled with an explicit
  fuel parameter; exhausting the fuel yields the outcome `hang`.
-/

/-- `f64::EPSILON` as an exact rational: `2 ^ (-52)`. -/
def eps : ℚ := 1 / 2 ^ 52

/-! ## Thermostat (src/thermostat.rs)

`Field<S>` is represented by its magnitude only; no claim depends on the
orientation component of the thermostat field. -/

/-- The clamping applied by `Thermostat::new` and `Thermostat::with_temperature`:
`if temperature < f64::EPSILON { f64::EPSILON } else { temperature }`. -/
def clampTemperature (t : ℚ) : ℚ := if t < eps then eps else t

/-- A thermal bath: temperature and external field (src/thermostat.rs). -/
structure Thermostat where
  temperature : ℚ
  field : ℚ
deriving DecidableEq

/-- `Thermostat::new(temperature, field)`. -/
def Thermostat.new (t f : ℚ) : Thermostat := ⟨clampTemperature t, f⟩

/-- `Thermostat::near_zero()`: temperature `f64::EPSILON`, zero field. -/
def Thermostat.nearZero : Thermostat := ⟨eps, 0⟩

/-- `Thermostat::with_temperature(temperature)`. -/
def Thermostat.withTemperature (th : Thermostat) (t : ℚ) : Thermostat :=
  ⟨clampTemperature t, th.field⟩

/-- `Thermostat::with_field(field)`. -/
def Thermostat.withField (th : Thermostat) (f : ℚ) : Thermostat :=
  ⟨th.temperature, f⟩

/-- The thermostats producible through the public constructors of
src/thermostat.rs. -/
inductive ThermostatReachable : Thermostat → Prop
  | new (t f : ℚ) : ThermostatReachable (Thermostat.new t f)
  | nearZero : ThermostatReachable Thermostat.nearZero
  | withTemperature {th : Thermostat} (t : ℚ) :
      ThermostatReachable th → ThermostatReachable (th.withTemperature t)
  | withField {th : Thermostat} (f : ℚ) :
      ThermostatReachable th → ThermostatReachable (th.withField f)

/-! ## Ising spins and magnetization (src/state.rs) -/

/-- `IsingSpin`: the two-valued spin. -/
inductive IsingSpin where
  | up
  | down
deriving DecidableEq

instance : Inhabited IsingSpin := ⟨IsingSpin.up⟩

/-- `IsingSpin::dot`: 1 on equal variants, -1 otherwise. -/
def IsingSpin.dot : IsingSpin → IsingSpin → ℚ
  | .up, .up => 1
  | .down, .down => 1
  | _, _ => -1

/-- The deterministic antipode of an Ising spin (`flip`). -/
def IsingSpin.flip : IsingSpin → IsingSpin
  | .up => .down
  | .down => .up

/-- The signed value of an Ising spin, used to reason about magnetization. -/
def IsingSpin.val : IsingSpin → ℤ
  | .up => 1
  | .down => -1

/-- `IsingMagnetization`: an unsigned magnitude plus a reference direction. -/
structure IsingMagnetization where
  magnitude : ℕ
  reference : IsingSpin
deriving DecidableEq

/-- `IsingMagnetization::new()`: magnitude 0, reference `Up`. -/
def IsingMagnetization.new : IsingMagnetization := ⟨0, .up⟩

/-- `impl Add<IsingSpin> for IsingMagnetization` (src/state.rs lines 193-215). -/
def IsingMagnetization.addSpin (m : IsingMagnetization) (s : IsingSpin) :
    IsingMagnetization :=
  if m.magnitude = 0 then ⟨1, s⟩
  else if m.reference = s then ⟨m.magnitude + 1, m.reference⟩
  else ⟨m.magnitude - 1, m.reference⟩

/-- The signed value represented by an `IsingMagnetization`. -/
def IsingMagnetization.signedVal (m : IsingMagnetization) : ℤ :=
  match m.reference with
  | .up => (m.magnitude : ℤ)
  | .down => -(m.magnitude : ℤ)

/-- `State::magnetization` for Ising spins: `Sum<IsingSpin>` folds
`IsingMagnetization::new()` through `Add<IsingSpin>` over the spins in order. -/
def isingMagnetization (spins : List IsingSpin) : IsingMagnetization :=
  spins.foldl IsingMagnetization.addSpin IsingMagnetization.new

/-- `State::at(i)` for Ising states.  The Rust accessor panics out of range;
every use below is in range, where `getD` agrees with it. -/
def stateAt (st : List IsingSpin) (i : ℕ) : IsingSpin := st.getD i .up

/-- The all-up Ising state `State::up_with_size(n)`. -/
def allUp (n : ℕ) : List IsingSpin := List.replicate n .up

/-! ## On-site energy components (src/energy.rs), at the Ising instance -/

/-- The default `Hamiltonian::total_energy`: sum of `energy(i)` over
`0..state.len()` (src/energy.rs lines 54-59). -/
def defaultTotalEnergy (energy : List IsingSpin → ℕ → ℚ) (st : List IsingSpin) : ℚ :=
  ∑ i ∈ Finset.range st.length, energy st i

/-- `Gauge::energy`: the constant, independent of state and site. -/
def gaugeEnergy (value : ℚ) (_st : List IsingSpin) (_i : ℕ) : ℚ := value

/-- `UniaxialAnisotropy::energy`: `s.dot(reference)^2 * strength`. -/
def uaEnergy (reference : IsingSpin) (strength : ℚ) (st : List IsingSpin) (i : ℕ) : ℚ :=
  ((stateAt st i).dot reference) ^ 2 * strength

/-- `UniaxialAnisotropy::total_energy` (src/energy.rs lines 114-120): sums
`s.dot(reference)^2` over the spins; the `strength` field of the struct is
present but not used by this method. -/
def uaTotalEnergy (reference : IsingSpin) (_strength : ℚ) (st : List IsingSpin) : ℚ :=
  (st.map (fun s => (s.dot reference) ^ 2)).sum

/-- `ZeemanEnergy::energy`: `s.dot(orientation) * magnitude` where the
orientation and magnitude come from the thermostat field. -/
def zeemanEnergy (orientation : IsingSpin) (magnitude : ℚ) (st : List IsingSpin)
    (i : ℕ) : ℚ :=
  (stateAt st i).dot orientation * magnitude

/-- `ZeemanEnergy::total_energy` (src/energy.rs lines 153-160):
`-magnitude * Σ s.dot(orientation)`. -/
def zeemanTotalEnergy (orientation : IsingSpin) (magnitude : ℚ)
    (st : List IsingSpin) : ℚ :=
  -magnitude * (st.map (fun s => s.dot orientation)).sum

/-! ## Exchange energy (src/energy.rs lines 163-214)

The lattice collaborator (`vegas_lattice::Lattice`) is opaque to the core;
it is modelled by its interface: a site count and the iterable of edges
`(source, target)`. -/

/-- The external lattice interface: `sites().len()` and `vertices()`. -/
structure ModelLattice where
  nsites : ℕ
  edges : List (ℕ × ℕ)

/-- The triplets inserted by `Exchange::from_lattice`: for each vertex with
`source <= target`, the triplets `(source, target, 1.0)` and
`(target, source, 1.0)`; other vertices insert nothing. -/
def exchangeTriplets (edges : List (ℕ × ℕ)) : List (ℕ × ℕ × ℚ) :=
  edges.foldr
    (fun v acc =>
      if v.1 ≤ v.2 then (v.1, v.2, (1 : ℚ)) :: (v.2, v.1, (1 : ℚ)) :: acc else acc)
    []

/-- The coupling-matrix entry `J[i, j]` after `to_csr`, which sums duplicate
triplets. -/
def tripletWeight (ts : List (ℕ × ℕ × ℚ)) (i j : ℕ) : ℚ :=
  (ts.filterMap (fun t => if t.1 = i ∧ t.2.1 = j then some t.2.2 else none)).sum

/-- `Exchange::energy(thermostat, state, i)`: for `i` inside the matrix,
`Σⱼ -J[i,j] * s_i.dot(s_j)` over the stored row (entries absent from the row
are zero, so summing over all column indices is the same sum); for `i`
outside the matrix, `outer_view` is `None` and the energy is 0. -/
def exchangeSiteEnergy (L : ModelLattice) (st : List IsingSpin) (i : ℕ) : ℚ :=
  if i < L.nsites then
    ∑ j ∈ Finset.range L.nsites,
      -(tripletWeight (exchangeTriplets L.edges) i j) * ((stateAt st i).dot (stateAt st j))
  else 0

/-- `Exchange::total_energy`: sum the per-site energies over
`0..state.len()`, then halve to correct double counting. -/
def exchangeTotalEnergy (L : ModelLattice) (st : List IsingSpin) : ℚ :=
  (∑ i ∈ Finset.range st.length, exchangeSiteEnergy L st i) / 2

/-! ## Programs (src/program.rs) and the machine trace (src/machine.rs) -/

/-- One operation invoked by a program on the machine. -/
inductive MEvent where
  | setThermostat (temperature field : ℚ)
  | relaxFor (steps : ℕ)
  | measureFor (steps : ℕ)
deriving DecidableEq

/-- The machine as seen by programs: its thermostat plus the trace of
operations invoked on it.  The spin state and rng play no role in the
events a program generates, and with an empty instrument list `relax_for`
and `measure_for` always return `Ok`. -/
structure MachineT where
  temperature : ℚ
  field : ℚ
  trace : List MEvent
deriving DecidableEq

/-- `machine.set_thermostat(t)`: replaces the thermostat, recorded in the
trace. -/
def MachineT.setThermostat (m : MachineT) (t f : ℚ) : MachineT :=
  ⟨t, f, m.trace ++ [.setThermostat t f]⟩

/-- `machine.set_thermostat(machine.thermostat().with_temperature(t))`:
the field is kept, the temperature is clamped as in `with_temperature`. -/
def MachineT.setTemperature (m : MachineT) (t : ℚ) : MachineT :=
  m.setThermostat (clampTemperature t) m.field

/-- `machine.set_thermostat(machine.thermostat().with_field(f))`. -/
def MachineT.setField (m : MachineT) (f : ℚ) : MachineT :=
  m.setThermostat m.temperature f

/-- `machine.relax_for(rng, n)` with no instruments: records the call. -/
def MachineT.relaxFor (m : MachineT) (n : ℕ) : MachineT :=
  ⟨m.temperature, m.field, m.trace ++ [.relaxFor n]⟩

/-- `machine.measure_for(rng, n)` with no instruments: records the call. -/
def MachineT.measureFor (m : MachineT) (n : ℕ) : MachineT :=
  ⟨m.temperature, m.field, m.trace ++ [.measureFor n]⟩

/-- The misconfiguration kinds of `ProgramError` (src/error.rs lines 30-46). -/
inductive ProgramError where
  | temperatureMaxLessThanMin
  | noSteps
  | zeroTemperature
  | zeroCoolRate
  | zeroField
  | zeroFieldStep
deriving DecidableEq

/-- Outcome of a program run: success with the final machine, a
`ProgramError` together with the machine as the program left it, or `hang`
when the fuel bounding a loop is exhausted (the Rust loop would not have
terminated within that many iterations). -/
inductive RunOutcome where
  | ok (m : MachineT)
  | err (e : ProgramError) (m : MachineT)
  | hang
deriving DecidableEq

/-- `Relax::run` (src/program.rs lines 96-113). -/
def relaxRun (steps : ℕ) (temperature : ℚ) (m : MachineT) : RunOutcome :=
  if steps = 0 then .err .noSteps m
  else if temperature < eps then .err .zeroTemperature m
  else .ok ((m.setTemperature temperature).relaxFor steps)

/-- The loop of `CoolDown::run`: set the thermostat temperature, relax,
measure, decrement, and stop once the decremented temperature is below the
minimum. -/
def coolDownLoop (minTemperature coolRate : ℚ) (relax steps : ℕ) :
    ℕ → ℚ → MachineT → Option MachineT
  | 0, _, _ => none
  | fuel + 1, temperature, m =>
    let m1 := ((m.setTemperature temperature).relaxFor relax).measureFor steps
    let t2 := temperature - coolRate
    if t2 < minTemperature then some m1
    else coolDownLoop minTemperature coolRate relax steps fuel t2 m1

/-- `CoolDown::run` (src/program.rs lines 181-211). -/
def coolDownRun (maxTemperature minTemperature coolRate : ℚ) (relax steps : ℕ)
    (fuel : ℕ) (m : MachineT) : RunOutcome :=
  if maxTemperature < minTemperature then .err .temperatureMaxLessThanMin m
  else if steps = 0 then .err .noSteps m
  else if minTemperature < eps then .err .zeroTemperature m
  else if coolRate < eps then .err .zeroCoolRate m
  else
    match coolDownLoop minTemperature coolRate relax steps fuel maxTemperature m with
    | some m1 => .ok m1
    | none => .hang

/-- First leg of `HysteresisLoop::run`: set field, relax, measure, increase
the field by `fieldStep`; break when the increased field exceeds
`maxField`.  Returns the field variable at exit together with the machine. -/
def hysteresisLeg1 (maxField fieldStep : ℚ) (relax steps : ℕ) :
    ℕ → ℚ → MachineT → Option (ℚ × MachineT)
  | 0, _, _ => none
  | fuel + 1, field, m =>
    let m1 := ((m.setField field).relaxFor relax).measureFor steps
    let f2 := field + fieldStep
    if maxField < f2 then some (f2, m1)
    else hysteresisLeg1 maxField fieldStep relax steps fuel f2 m1

/-- Second leg of `HysteresisLoop::run`: decrease the field; break when it
drops below `-maxField`. -/
def hysteresisLeg2 (maxField fieldStep : ℚ) (relax steps : ℕ) :
    ℕ → ℚ → MachineT → Option (ℚ × MachineT)
  | 0, _, _ => none
  | fuel + 1, field, m =>
    let m1 := ((m.setField field).relaxFor relax).measureFor steps
    let f2 := field - fieldStep
    if f2 < -maxField then some (f2, m1)
    else hysteresisLeg2 maxField fieldStep relax steps fuel f2 m1

/-- Third leg of `HysteresisLoop::run`, exactly as the source has it: the
field is increased, and the loop breaks when the increased field is LESS
than `maxField` (src/program.rs lines 319-327). -/
def hysteresisLeg3 (maxField fieldStep : ℚ) (relax steps : ℕ) :
    ℕ → ℚ → MachineT → Option (ℚ × MachineT)
  | 0, _, _ => none
  | fuel + 1, field, m =>
    let m1 := ((m.setField field).relaxFor relax).measureFor steps
    let f2 := field + fieldStep
    if f2 < maxField then some (f2, m1)
    else hysteresisLeg3 maxField fieldStep relax steps fuel f2 m1

/-- `HysteresisLoop::run` (src/program.rs lines 280-330). -/
def hysteresisRun (steps relax : ℕ) (temperature maxField fieldStep : ℚ)
    (fuel : ℕ) (m : MachineT) : RunOutcome :=
  if steps = 0 then .err .noSteps m
  else if temperature < eps then .err .zeroTemperature m
  else if maxField < eps then .err .zeroField m
  else if fieldStep < eps then .err .zeroFieldStep m
  else
    let m0 := m.setTemperature temperature
    match hysteresisLeg1 maxField fieldStep relax steps fuel 0 m0 with
    | none => .hang
    | some (f1, m1) =>
      match hysteresisLeg2 maxField fieldStep relax steps fuel f1 m1 with
      | none => .hang
      | some (f2, m2) =>
        match hysteresisLeg3 maxField fieldStep relax steps fuel f2 m2 with
        | none => .hang
        | some (_, m3) => .ok m3

/-- Whether a trace event is a `measure_for` call. -/
def MEvent.isMeasure : MEvent → Bool
  | .measureFor _ => true
  | _ => false

/-- Number of `measure_for` calls in a trace: one per (relax, measure)
cycle of a program loop. -/
def measureCount (tr : List MEvent) : ℕ := tr.countP MEvent.isMeasure

/-- The number of measure cycles of a successful run. -/
def measureCountOutcome : RunOutcome → Option ℕ
  | .ok m => some (measureCount m.trace)
  | _ => none

/-- The field component of the last `set_thermostat` in a trace. -/
def lastSetField (tr : List MEvent) : Option ℚ :=
  tr.reverse.findSome? (fun e =>
    match e with
    | .setThermostat _ f => some f
    | _ => none)

/-- The last-set thermostat temperature of a successful run. -/
def finalTemperature : RunOutcome → Option ℚ
  | .ok m => some m.temperature
  | _ => none

/-! ## Integrators (src/integrator.rs)

All three `step` implementations begin with
`Uniform::new(0, state.len()).expect(..)`; in `rand`, `Uniform::new(lo, hi)`
returns an error exactly when the range `lo..hi` is empty, and `expect`
panics on it.  A panic is modelled as `none`. -/

/-- `rand`'s `Uniform::new(lo, hi)`: fails iff the range is empty. -/
def uniformNew (lo hi : ℕ) : Option Unit :=
  if lo < hi then some () else none

/-- One trial move of `MetropolisIntegrator::step` (loop body,
src/integrator.rs lines 76-88): read the old local energy and spin, write
the proposed spin, and keep it unless the energy increased and the
acceptance draw failed, in which case the old spin is restored. -/
noncomputable def metropolisTrial {S : Type} [Inhabited S]
    (energy : List S → ℕ → ℝ) (temperature : ℝ)
    (site : ℕ) (proposal : S) (accept : ℝ) (st : List S) : List S :=
  let oldEnergy := energy st site
  let oldSpin := st.getD site default
  let st1 := st.set site proposal
  let newEnergy := energy st1 site
  let delta := newEnergy - oldEnergy
  if delta < 0 then st1
  else if accept < Real.exp (-delta / temperature) then st1
  else st1.set site oldSpin

/-- `MetropolisIntegrator::step`: create the site distribution (panics on an
empty state), then run `state.len()` trials; the k-th trial uses the k-th
site draw reduced into `[0, len)`, the k-th proposed spin `Spin::rand(rng)`,
and the k-th acceptance draw. -/
noncomputable def metropolisStep {S : Type} [Inhabited S]
    (energy : List S → ℕ → ℝ) (temperature : ℝ)
    (siteDraws : ℕ → ℕ) (proposalDraws : ℕ → S) (acceptDraws : ℕ → ℝ)
    (st : List S) : Option (List S) :=
  match uniformNew 0 st.length with
  | none => none
  | some _ =>
    some ((List.range st.length).foldl
      (fun s k =>
        metropolisTrial energy temperature (siteDraws k % st.length)
          (proposalDraws k) (acceptDraws k) s)
      st)

/-- One trial move of `MetropolisFlipIntegrator::step`: identical to the
Metropolis trial except that the proposal is `old_spin.flip()`. -/
noncomputable def metropolisFlipTrial {S : Type} [Inhabited S] (flip : S → S)
    (energy : List S → ℕ → ℝ) (temperature : ℝ)
    (site : ℕ) (accept : ℝ) (st : List S) : List S :=
  let oldEnergy := energy st site
  let oldSpin := st.getD site default
  let st1 := st.set site (flip oldSpin)
  let newEnergy := energy st1 site
  let delta := newEnergy - oldEnergy
  if delta < 0 then st1
  else if accept < Real.exp (-delta / temperature) then st1
  else st1.set site oldSpin

/-- `MetropolisFlipIntegrator::step` (src/integrator.rs lines 113-138). -/
noncomputable def metropolisFlipStep {S : Type} [Inhabited S] (flip : S → S)
    (energy : List S → ℕ → ℝ) (temperature : ℝ)
    (siteDraws : ℕ → ℕ) (acceptDraws : ℕ → ℝ)
    (st : List S) : Option (List S) :=
  match uniformNew 0 st.length with
  | none => none
  | some _ =>
    some ((List.range st.length).foldl
      (fun s k =>
        metropolisFlipTrial flip energy temperature (siteDraws k % st.length)
          (acceptDraws k) s)
      st)

/-- The Wolff bond probability `1 - exp(-2 / T)`, computed for each
candidate neighbor in the source; it does not depend on the candidate. -/
noncomputable def wolffProb (temperature : ℝ) : ℝ :=
  1 - Real.exp (-2 / temperature)

/-- Decrease of the unvisited count when a fresh site is marked; used for
the termination of the Wolff BFS. -/
theorem count_false_set_true_lt (l : List Bool) (i : ℕ)
    (h : l.getD i true = false) :
    (l.set i true).count false < l.count false := by
  induction l generalizing i with
  | nil => simp [List.getD] at h
  | cons b bs ih =>
    cases i with
    | zero =>
      simp [List.getD] at h
      subst h
      simp [List.count_cons]
    | succ n =>
      simp only [List.getD_cons_succ] at h
      have := ih n h
      cases b <;> simp [List.count_cons, List.set] <;> omega

/-- The cluster-building BFS of `WolffIntegrator::step`
(src/integrator.rs lines 188-207).  Arguments after the fixed data: the
queue, the visited flags, the cluster built so far, and the index of the
next acceptance draw (the source consumes one `rng.random::<f64>()` per
unvisited equal-spin neighbor). -/
noncomputable def wolffBuildCluster (neighbors : List (List ℕ))
    (st : List IsingSpin) (prob : ℝ) (acceptDraws : ℕ → ℝ) :
    List ℕ → List Bool → List ℕ → ℕ → List ℕ
  | [], _, cluster, _ => cluster
  | site :: rest, visited, cluster, draws =>
    if h : visited.getD site true then
      wolffBuildCluster neighbors st prob acceptDraws rest visited cluster draws
    else
      let visited1 := visited.set site true
      let spin := st.getD site .up
      let pushed := (neighbors.getD site []).foldl
        (fun (acc : List ℕ × ℕ) nb =>
          if visited1.getD nb true = false ∧ st.getD nb .up = spin then
            if acceptDraws acc.2 < prob then (acc.1 ++ [nb], acc.2 + 1)
            else (acc.1, acc.2 + 1)
          else acc)
        (([] : List ℕ), draws)
      wolffBuildCluster neighbors st prob acceptDraws (rest ++ pushed.1) visited1
        (cluster ++ [site]) pushed.2
  termination_by queue visited _ _ => (visited.count false, queue.length)
  decreasing_by
  · apply Prod.Lex.right
    simp
  · apply Prod.Lex.left
    exact count_false_set_true_lt visited site (by simpa using h)

/-- `WolffIntegrator::step` (src/integrator.rs lines 173-218): panic on the
empty state when creating the seed distribution, otherwise grow a cluster
from a uniformly drawn seed and flip every spin in it. -/
noncomputable def wolffStep (neighbors : List (List ℕ)) (temperature : ℝ)
    (seedDraw : ℕ) (acceptDraws : ℕ → ℝ) (st : List IsingSpin) :
    Option (List IsingSpin) :=
  match uniformNew 0 st.length with
  | none => none
  | some _ =>
    let source := seedDraw % st.length
    let cluster := wolffBuildCluster neighbors st (wolffProb temperature)
      acceptDraws [source] (List.replicate st.length false) [] 0
    some (cluster.foldl (fun s site => s.set site ((s.getD site .up).flip)) st)

/-! ## Heisenberg random spin (src/state.rs lines 233-244) -/

/-- `HeisenbergSpin::rand` as a function of the three draws of the standard
normal distribution it consumes: if the sum of squares is zero, return
`up = (0, 0, 1)`; otherwise scale by `1 / sqrt(sum)`. -/
noncomputable def heisenbergRand (x y z : ℝ) : ℝ × ℝ × ℝ :=
  let sum := x * x + y * y + z * z
  if sum = 0 then (0, 0, 1)
  else
    let norm := 1 / Real.sqrt sum
    (x * norm, y * norm, z * norm)

/-- Modelled from the spec: the spin emitted by one accepted round of
Marsaglia sphere-point picking from the uniform draws `(u1, u2)`. -/
noncomputable def marsagliaSpin (u1 u2 : ℝ) : ℝ × ℝ × ℝ :=
  let s := u1 ^ 2 + u2 ^ 2
  (2 * u1 * Real.sqrt (1 - s), 2 * u2 * Real.sqrt (1 - s), 1 - 2 * s)

/-- Modelled from the spec: Marsaglia rejection accepts `(u1, u2)` when
`u1^2 + u2^2 < 1`. -/
def marsagliaAccepts (u1 u2 : ℝ) : Prop := u1 ^ 2 + u2 ^ 2 < 1

/-- Squared Euclidean norm of a spin triple. -/
def normSq (v : ℝ × ℝ × ℝ) : ℝ := v.1 * v.1 + v.2.1 * v.2.1 + v.2.2 * v.2.2

/-! ## Expected traces for the hysteresis evaluation at the claimed input

With `steps = 1`, `relax = 0`, `temperature = 1`, `max_field = 1` and
`field_step = 1/10`, every loop cycle appends the three events
`set_thermostat`, `relax_for 0`, `measure_for 1`, and the three legs visit
the field values listed below. -/

/-- The three machine events of one (set field, relax, measure) cycle at
temperature `t` and field `f`, for `relax = 0` and `steps = 1`. -/
def hystCycle (t f : ℚ) : List MEvent :=
  [.setThermostat t f, .relaxFor 0, .measureFor 1]

/-- Fields visited by the first leg: `0, 1/10, ..., 1` (11 cycles). -/
def hystFields1 : List ℚ :=
  [0, 1/10, 1/5, 3/10, 2/5, 1/2, 3/5, 7/10, 4/5, 9/10, 1]

/-- Fields visited by the second leg, which starts from the overshot field
`11/10`: `11/10, 1, ..., -1` (22 cycles). -/
def hystFields2 : List ℚ :=
  [11/10, 1, 9/10, 4/5, 7/10, 3/5, 1/2, 2/5, 3/10, 1/5, 1/10, 0,
   -1/10, -1/5, -3/10, -2/5, -1/2, -3/5, -7/10, -4/5, -9/10, -1]

/-- Fields visited by the third leg: the single cycle at `-11/10`. -/
def hystFields3 : List ℚ := [-11/10]

/-- The machine after the first leg of the run. -/
def c1Machine1 : MachineT :=
  ⟨1, 1, .setThermostat 1 0 :: (hystFields1.map (hystCycle 1)).flatten⟩

/-- The machine after the second leg of the run. -/
def c1Machine2 : MachineT :=
  ⟨1, -1, .setThermostat 1 0 :: ((hystFields1 ++ hystFields2).map (hystCycle 1)).flatten⟩

/-- The machine after the third leg of the run. -/
def c1Machine3 : MachineT :=
  ⟨1, -11/10,
    .setThermostat 1 0 ::
      ((hystFields1 ++ hystFields2 ++ hystFields3).map (hystCycle 1)).flatten⟩

/-! ## Helper lemmas -/

/-- The clamp of src/thermostat.rs never returns below `f64::EPSILON`. -/
theorem eps_le_clampTemperature (t : ℚ) : eps ≤ clampTemperature t := by
  unfold clampTemperature
  split
  · exact le_refl eps
  · linarith [not_lt.mp (by assumption : ¬ t < eps)]

/-- `Add<IsingSpin>` adds the signed value of the spin to the signed value
of the magnetization. -/
theorem addSpin_signedVal (m : IsingMagnetization) (s : IsingSpin) :
    (m.addSpin s).signedVal = m.signedVal + s.val := by
  rcases m with ⟨mag, r⟩
  by_cases hm : mag = 0 <;>
    cases s <;> cases r <;>
      simp [IsingMagnetization.addSpin, IsingMagnetization.signedVal,
        IsingSpin.val, hm] <;>
  omega

/-- The magnitude of a magnetization is the absolute value of its signed
value. -/
theorem magnitude_eq_natAbs (m : IsingMagnetization) :
    m.magnitude = m.signedVal.natAbs := by
  rcases m with ⟨mag, r⟩
  cases r <;> simp [IsingMagnetization.signedVal]

/-- Folding `Add<IsingSpin>` over a list adds the sum of the spin values. -/
theorem foldl_addSpin_signedVal (l : List IsingSpin) (m : IsingMagnetization) :
    (l.foldl IsingMagnetization.addSpin m).signedVal
      = m.signedVal + (l.map IsingSpin.val).sum := by
  induction l generalizing m with
  | nil => simp
  | cons s rest ih =>
    simp only [List.foldl_cons, List.map_cons, List.sum_cons]
    rw [ih, addSpin_signedVal]
    ring

/-- The sum of spin values counts ups minus downs. -/
theorem sum_val_eq_counts (l : List IsingSpin) :
    (l.map IsingSpin.val).sum
      = (l.count IsingSpin.up : ℤ) - (l.count IsingSpin.down : ℤ) := by
  induction l with
  | nil => simp
  | cons s rest ih =>
    cases s <;>
      simp [List.count_cons, ih, IsingSpin.val] <;> ring

/-- C10: for every `State<IsingSpin>` containing `u` spins `Up` and `d`
spins `Down`, `magnetization().magnitude()` equals the absolute difference
`|u - d|`, computed exactly and independently of the order of the spins. -/
theorem c10_ising_magnetization_magnitude (l : List IsingSpin) :
    (isingMagnetization l).magnitude
      = ((l.count IsingSpin.up : ℤ) - (l.count IsingSpin.down : ℤ)).natAbs := by
  rw [isingMagnetization, magnitude_eq_natAbs, foldl_addSpin_signedVal,
    sum_val_eq_counts]
  simp [IsingMagnetization.new, IsingMagnetization.signedVal]

/-- C9: `Thermostat::new` and `with_temperature` clamp the temperature to at
least `f64::EPSILON`, `with_field` leaves the temperature unchanged, and
consequently every thermostat built from the public constructors has
temperature at least `f64::EPSILON`. -/
theorem c9_thermostat_clamped :
    (∀ t f : ℚ, eps ≤ (Thermostat.new t f).temperature) ∧
    (∀ (th : Thermostat) (t : ℚ), eps ≤ (th.withTemperature t).temperature) ∧
    (∀ (th : Thermostat) (f : ℚ), (th.withField f).temperature = th.temperature) ∧
    (∀ th : Thermostat, ThermostatReachable th → eps ≤ th.temperature) := by
  refine ⟨fun t f => eps_le_clampTemperature t,
    fun th t => eps_le_clampTemperature t,
    fun th f => rfl, ?_⟩
  intro th h
  induction h with
  | new t f => exact eps_le_clampTemperature t
  | nearZero => exact le_refl eps
  | withTemperature t _ _ => exact eps_le_clampTemperature t
  | withField f _ ih => simpa [Thermostat.withField] using ih

/-- Witness for C9 at a concrete reachable thermostat. -/
theorem c9_thermostat_clamped_witness :
    ThermostatReachable ((Thermostat.new 3 0).withField 2) ∧
    eps ≤ ((Thermostat.new 3 0).withField 2).temperature :=
  ⟨ThermostatReachable.withField 2 (ThermostatReachable.new 3 0),
    c9_thermostat_clamped.2.2.2 _
      (ThermostatReachable.withField 2 (ThermostatReachable.new 3 0))⟩

/-- C2, evaluated at the failing inputs: on the one-spin up state,
`UniaxialAnisotropy(up, 2)` has `total_energy = 1` while `Σᵢ energy(i) = 2`
(the method drops the strength factor), and `ZeemanEnergy` under the field
`(up, 1)` has `total_energy = -1` while `Σᵢ energy(i) = +1` (the per-site
method lacks the minus sign); so `total_energy = Σᵢ energy(i)` fails for
these on-site components. -/
theorem c2_onsite_total_energy_mismatch :
    uaTotalEnergy .up 2 [.up] = 1 ∧
    defaultTotalEnergy (uaEnergy .up 2) [.up] = 2 ∧
    uaTotalEnergy .up 2 [.up] ≠ defaultTotalEnergy (uaEnergy .up 2) [.up] ∧
    zeemanTotalEnergy .up 1 [.up] = -1 ∧
    defaultTotalEnergy (zeemanEnergy .up 1) [.up] = 1 ∧
    zeemanTotalEnergy .up 1 [.up] ≠ defaultTotalEnergy (zeemanEnergy .up 1) [.up] := by
  norm_num [uaTotalEnergy, defaultTotalEnergy, uaEnergy, zeemanTotalEnergy,
    zeemanEnergy, stateAt, IsingSpin.dot]


set_option maxRecDepth 16000 in
set_option maxHeartbeats 1600000 in
/-- C1, evaluated on the code at `steps = 1`, `relax = 0`,
`temperature = 1`, `max_field = 1`, `field_step = 1/10`: the first leg
performs 11 cycles (fields `0` to `1`) and leaves the field variable at
`11/10`; the second leg, started from that overshot field, performs 22
cycles (fields `11/10` down to `-1`) and leaves the field at `-11/10`; the
third leg performs exactly 1 cycle, at field `-11/10` (its break condition
`field < max_field` holds immediately), and the run returns with 34 measure
cycles in total, not the 11 + 21 + 20 = 52 cycles the claim describes. -/
theorem c1_hysteresis_legs_eval :
    hysteresisLeg1 1 (1/10) 0 1 50 0 ⟨1, 0, [.setThermostat 1 0]⟩
        = some (11/10, c1Machine1) ∧
    hysteresisLeg2 1 (1/10) 0 1 50 (11/10) c1Machine1 = some (-11/10, c1Machine2) ∧
    hysteresisLeg3 1 (1/10) 0 1 50 (-11/10) c1Machine2 = some (-1, c1Machine3) ∧
    hysteresisRun 1 0 1 1 (1/10) 50 ⟨3, 0, []⟩ = RunOutcome.ok c1Machine3 ∧
    measureCount c1Machine1.trace = 11 ∧
    measureCount c1Machine2.trace = 33 ∧
    measureCount c1Machine3.trace = 34 ∧
    measureCount c1Machine3.trace ≠ 52 := by
  have h1 : hysteresisLeg1 1 (1/10) 0 1 50 0 ⟨1, 0, [.setThermostat 1 0]⟩
      = some (11/10, c1Machine1) := by
    norm_num [hysteresisLeg1, MachineT.setField, MachineT.setThermostat,
      MachineT.relaxFor, MachineT.measureFor, c1Machine1, hystFields1, hystCycle]
  have h2 : hysteresisLeg2 1 (1/10) 0 1 50 (11/10) c1Machine1
      = some (-11/10, c1Machine2) := by
    norm_num [hysteresisLeg2, MachineT.setField, MachineT.setThermostat,
      MachineT.relaxFor, MachineT.measureFor, c1Machine1, c1Machine2,
      hystFields1, hystFields2, hystCycle]
  have h3 : hysteresisLeg3 1 (1/10) 0 1 50 (-11/10) c1Machine2
      = some (-1, c1Machine3) := by
    norm_num [hysteresisLeg3, MachineT.setField, MachineT.setThermostat,
      MachineT.relaxFor, MachineT.measureFor, c1Machine2, c1Machine3,
      hystFields1, hystFields2, hystFields3, hystCycle]
  have h0 : (⟨3, 0, []⟩ : MachineT).setTemperature 1
      = (⟨1, 0, [.setThermostat 1 0]⟩ : MachineT) := by
    norm_num [MachineT.setTemperature, MachineT.setThermostat, clampTemperature, eps]
  refine ⟨h1, h2, h3, ?_, by decide, by decide, by decide, by decide⟩
  unfold hysteresisRun
  rw [if_neg (by norm_num), if_neg (by norm_num [eps]), if_neg (by norm_num [eps]),
    if_neg (by norm_num [eps])]
  simp only [h0, h1, h2, h3]

/-- The `CoolDown` loop sets the machine temperature one last time in the
iteration whose decrement first drops below the minimum; so the final
machine temperature `T` satisfies `minT ≤ T < minT + rate`. -/
theorem coolDownLoop_final_temperature (minT rate : ℚ) (relax steps : ℕ) :
    ∀ (fuel : ℕ) (T : ℚ) (m m1 : MachineT),
      coolDownLoop minT rate relax steps fuel T m = some m1 →
      eps ≤ minT → minT ≤ T →
      minT ≤ m1.temperature ∧ m1.temperature < minT + rate := by
  intro fuel
  induction fuel with
  | zero =>
    intro T m m1 h _ _
    simp [coolDownLoop] at h
  | succ n ih =>
    intro T m m1 h heps hT
    have hclamp : clampTemperature T = T := by
      unfold clampTemperature
      rw [if_neg]
      linarith
    simp only [coolDownLoop] at h
    by_cases hcase : T - rate < minT
    · rw [if_pos hcase] at h
      have hm : ((m.setTemperature T).relaxFor relax).measureFor steps = m1 :=
        Option.some.inj h
      have htemp : m1.temperature = T := by
        rw [← hm]
        simp [MachineT.measureFor, MachineT.relaxFor, MachineT.setTemperature,
          MachineT.setThermostat, hclamp]
      rw [htemp]
      exact ⟨hT, by linarith⟩
    · rw [if_neg hcase] at h
      exact ih (T - rate) _ m1 h heps (by linarith [not_lt.mp hcase])

/-- C4 (amended): when `CoolDown::run` returns successfully, the thermostat
temperature last set on the machine, `T_last`, satisfies
`T_min ≤ T_last < T_min + cool_rate`; equivalently the decremented loop
variable `T_last - cool_rate` is the quantity below `T_min`. -/
theorem c4_cooldown_last_temperature (maxT minT rate : ℚ) (relax steps fuel : ℕ)
    (m m1 : MachineT)
    (h : coolDownRun maxT minT rate relax steps fuel m = RunOutcome.ok m1) :
    minT ≤ m1.temperature ∧ m1.temperature < minT + rate := by
  unfold coolDownRun at h
  by_cases h1 : maxT < minT
  · simp [h1] at h
  rw [if_neg h1] at h
  by_cases h2 : steps = 0
  · simp [h2] at h
  rw [if_neg h2] at h
  by_cases h3 : minT < eps
  · simp [h3] at h
  rw [if_neg h3] at h
  by_cases h4 : rate < eps
  · simp [h4] at h
  rw [if_neg h4] at h
  cases hloop : coolDownLoop minT rate relax steps fuel maxT m with
  | none =>
    rw [hloop] at h
    simp at h
  | some m2 =>
    rw [hloop] at h
    simp only [RunOutcome.ok.injEq] at h
    exact h ▸ coolDownLoop_final_temperature minT rate relax steps fuel maxT m m2
      hloop (not_lt.mp h3) (not_lt.mp h1)

/-- Counterexample to C4 as stated: with `T_max = T_min = 1`,
`cool_rate = 1`, `relax = 0`, `steps = 1`, the run succeeds and the last
temperature set on the machine is `1 = T_min`, so `T_last < T_min` fails. -/
theorem c4_counterexample :
    coolDownRun 1 1 1 0 1 5 ⟨3, 0, []⟩
        = RunOutcome.ok ⟨1, 0, [.setThermostat 1 0, .relaxFor 0, .measureFor 1]⟩ ∧
    ¬ ((1 : ℚ) < 1) := by
  constructor
  · norm_num [coolDownRun, coolDownLoop, MachineT.setTemperature,
      MachineT.setThermostat, MachineT.relaxFor, MachineT.measureFor,
      clampTemperature, eps]
  · norm_num

/-- Witness for C4 (amended) at `T_max = 1`, `T_min = cool_rate = 1/2`:
the run succeeds, the last set temperature is `1/2`, and it lies in
`[T_min, T_min + cool_rate)`. -/
theorem c4_cooldown_last_temperature_witness :
    coolDownRun 1 (1/2) (1/2) 0 1 5 ⟨3, 0, []⟩
        = RunOutcome.ok ⟨1/2, 0, [.setThermostat 1 0, .relaxFor 0, .measureFor 1,
            .setThermostat (1/2) 0, .relaxFor 0, .measureFor 1]⟩ ∧
    ((1 : ℚ)/2 ≤ (MachineT.mk (1/2) 0 [.setThermostat 1 0, .relaxFor 0, .measureFor 1,
            .setThermostat (1/2) 0, .relaxFor 0, .measureFor 1]).temperature ∧
      (MachineT.mk (1/2) 0 [.setThermostat 1 0, .relaxFor 0, .measureFor 1,
            .setThermostat (1/2) 0, .relaxFor 0, .measureFor 1]).temperature
        < 1/2 + 1/2) :=
  ⟨by norm_num [coolDownRun, coolDownLoop, MachineT.setTemperature,
      MachineT.setThermostat, MachineT.relaxFor, MachineT.measureFor,
      clampTemperature, eps],
    c4_cooldown_last_temperature 1 (1/2) (1/2) 0 1 5 ⟨3, 0, []⟩ _
      (by norm_num [coolDownRun, coolDownLoop, MachineT.setTemperature,
        MachineT.setThermostat, MachineT.relaxFor, MachineT.measureFor,
        clampTemperature, eps])⟩

/-- C8: each program validates its parameters at the start of `run`; when a
bound is violated, `run` returns the corresponding `ProgramError` kind and
the machine is returned exactly as it was given — no thermostat change and
no trace event.  The conjuncts follow the order of the checks in the
source, so each kind is the one reported when the earlier checks pass. -/
theorem c8_program_validation (steps relax fuel : ℕ)
    (temperature maxT minT rate maxField fieldStep : ℚ) (m : MachineT) :
    (steps = 0 → relaxRun steps temperature m = RunOutcome.err .noSteps m) ∧
    (steps ≠ 0 → temperature < eps →
      relaxRun steps temperature m = RunOutcome.err .zeroTemperature m) ∧
    (maxT < minT →
      coolDownRun maxT minT rate relax steps fuel m
        = RunOutcome.err .temperatureMaxLessThanMin m) ∧
    (¬ maxT < minT → steps = 0 →
      coolDownRun maxT minT rate relax steps fuel m = RunOutcome.err .noSteps m) ∧
    (¬ maxT < minT → steps ≠ 0 → minT < eps →
      coolDownRun maxT minT rate relax steps fuel m
        = RunOutcome.err .zeroTemperature m) ∧
    (¬ maxT < minT → steps ≠ 0 → ¬ minT < eps → rate < eps →
      coolDownRun maxT minT rate relax steps fuel m
        = RunOutcome.err .zeroCoolRate m) ∧
    (steps = 0 →
      hysteresisRun steps relax temperature maxField fieldStep fuel m
        = RunOutcome.err .noSteps m) ∧
    (steps ≠ 0 → temperature < eps →
      hysteresisRun steps relax temperature maxField fieldStep fuel m
        = RunOutcome.err .zeroTemperature m) ∧
    (steps ≠ 0 → ¬ temperature < eps → maxField < eps →
      hysteresisRun steps relax temperature maxField fieldStep fuel m
        = RunOutcome.err .zeroField m) ∧
    (steps ≠ 0 → ¬ temperature < eps → ¬ maxField < eps → fieldStep < eps →
      hysteresisRun steps relax temperature maxField fieldStep fuel m
        = RunOutcome.err .zeroFieldStep m) := by
  refine ⟨?_, ?_, ?_, ?_, ?_, ?_, ?_, ?_, ?_, ?_⟩
  · intro h0
    simp [relaxRun, h0]
  · intro h0 h1
    simp [relaxRun, h0, h1]
  · intro h0
    simp [coolDownRun, h0]
  · intro h0 h1
    simp [coolDownRun, h0, h1]
  · intro h0 h1 h2
    simp [coolDownRun, h0, h1, h2]
  · intro h0 h1 h2 h3
    simp [coolDownRun, h0, h1, h2, h3]
  · intro h0
    simp [hysteresisRun, h0]
  · intro h0 h1
    simp [hysteresisRun, h0, h1]
  · intro h0 h1 h2
    simp [hysteresisRun, h0, h1, h2]
  · intro h0 h1 h2 h3
    simp [hysteresisRun, h0, h1, h2, h3]

/-- Witness for C8: every validation failure evaluated at a concrete
violating input, each returning its specific error kind with the machine
untouched. -/
theorem c8_program_validation_witness :
    relaxRun 0 3 ⟨3, 0, []⟩ = RunOutcome.err .noSteps ⟨3, 0, []⟩ ∧
    relaxRun 7 0 ⟨3, 0, []⟩ = RunOutcome.err .zeroTemperature ⟨3, 0, []⟩ ∧
    coolDownRun 1 2 1 0 5 9 ⟨3, 0, []⟩
      = RunOutcome.err .temperatureMaxLessThanMin ⟨3, 0, []⟩ ∧
    coolDownRun 2 1 1 0 0 9 ⟨3, 0, []⟩ = RunOutcome.err .noSteps ⟨3, 0, []⟩ ∧
    coolDownRun 2 0 1 0 5 9 ⟨3, 0, []⟩
      = RunOutcome.err .zeroTemperature ⟨3, 0, []⟩ ∧
    coolDownRun 2 1 0 0 5 9 ⟨3, 0, []⟩ = RunOutcome.err .zeroCoolRate ⟨3, 0, []⟩ ∧
    hysteresisRun 0 0 1 1 1 9 ⟨3, 0, []⟩ = RunOutcome.err .noSteps ⟨3, 0, []⟩ ∧
    hysteresisRun 5 0 0 1 1 9 ⟨3, 0, []⟩
      = RunOutcome.err .zeroTemperature ⟨3, 0, []⟩ ∧
    hysteresisRun 5 0 1 0 1 9 ⟨3, 0, []⟩ = RunOutcome.err .zeroField ⟨3, 0, []⟩ ∧
    hysteresisRun 5 0 1 1 0 9 ⟨3, 0, []⟩
      = RunOutcome.err .zeroFieldStep ⟨3, 0, []⟩ :=
  ⟨(c8_program_validation 0 0 9 3 2 1 1 1 1 ⟨3, 0, []⟩).1 rfl,
    (c8_program_validation 7 0 9 0 2 1 1 1 1 ⟨3, 0, []⟩).2.1 (by norm_num)
      (by norm_num [eps]),
    (c8_program_validation 5 0 9 3 1 2 1 1 1 ⟨3, 0, []⟩).2.2.1 (by norm_num),
    (c8_program_validation 0 0 9 3 2 1 1 1 1 ⟨3, 0, []⟩).2.2.2.1
      (by norm_num) rfl,
    (c8_program_validation 5 0 9 3 2 0 1 1 1 ⟨3, 0, []⟩).2.2.2.2.1
      (by norm_num) (by norm_num) (by norm_num [eps]),
    (c8_program_validation 5 0 9 3 2 1 0 1 1 ⟨3, 0, []⟩).2.2.2.2.2.1
      (by norm_num) (by norm_num) (by norm_num [eps]) (by norm_num [eps]),
    (c8_program_validation 0 0 9 1 2 1 1 1 1 ⟨3, 0, []⟩).2.2.2.2.2.2.1 rfl,
    (c8_program_validation 5 0 9 0 2 1 1 1 1 ⟨3, 0, []⟩).2.2.2.2.2.2.2.1
      (by norm_num) (by norm_num [eps]),
    (c8_program_validation 5 0 9 1 2 1 1 0 1 ⟨3, 0, []⟩).2.2.2.2.2.2.2.2.1
      (by norm_num) (by norm_num [eps]) (by norm_num [eps]),
    (c8_program_validation 5 0 9 1 2 1 1 1 0 ⟨3, 0, []⟩).2.2.2.2.2.2.2.2.2
      (by norm_num) (by norm_num [eps]) (by norm_num [eps]) (by norm_num [eps])⟩

/-- Unfolding `exchangeTriplets` over one vertex. -/
theorem exchangeTriplets_cons (e : ℕ × ℕ) (es : List (ℕ × ℕ)) :
    exchangeTriplets (e :: es)
      = if e.1 ≤ e.2 then
          (e.1, e.2, (1 : ℚ)) :: (e.2, e.1, (1 : ℚ)) :: exchangeTriplets es
        else exchangeTriplets es := rfl

/-- Unfolding `tripletWeight` over one triplet. -/
theorem tripletWeight_cons (t : ℕ × ℕ × ℚ) (ts : List (ℕ × ℕ × ℚ)) (i j : ℕ) :
    tripletWeight (t :: ts) i j
      = (if t.1 = i ∧ t.2.1 = j then t.2.2 else 0) + tripletWeight ts i j := by
  by_cases hc : t.1 = i ∧ t.2.1 = j <;>
    simp [tripletWeight, List.filterMap_cons, hc]

/-- The coupling matrix built by `Exchange::from_lattice` is symmetric: the
two triplets of every inserted pair mirror each other. -/
theorem tripletWeight_symm (edges : List (ℕ × ℕ)) (i j : ℕ) :
    tripletWeight (exchangeTriplets edges) i j
      = tripletWeight (exchangeTriplets edges) j i := by
  induction edges with
  | nil => rfl
  | cons e es ih =>
    rw [exchangeTriplets_cons]
    by_cases he : e.1 ≤ e.2
    · rw [if_pos he, tripletWeight_cons, tripletWeight_cons,
        tripletWeight_cons, tripletWeight_cons, ih]
      show (if e.1 = i ∧ e.2 = j then (1 : ℚ) else 0) +
          ((if e.2 = i ∧ e.1 = j then (1 : ℚ) else 0) +
            tripletWeight (exchangeTriplets es) j i)
        = (if e.1 = j ∧ e.2 = i then (1 : ℚ) else 0) +
          ((if e.2 = j ∧ e.1 = i then (1 : ℚ) else 0) +
            tripletWeight (exchangeTriplets es) j i)
      have h1 : (e.1 = i ∧ e.2 = j) = (e.2 = j ∧ e.1 = i) := propext and_comm
      have h2 : (e.2 = i ∧ e.1 = j) = (e.1 = j ∧ e.2 = i) := propext and_comm
      simp only [h1, h2]
      ring
    · rw [if_neg he]
      exact ih

/-- Summing the coupling matrix over the full grid recovers the total
weight of the stored triplets, provided every triplet is in range. -/
theorem sum_grid_tripletWeight (n : ℕ) :
    ∀ ts : List (ℕ × ℕ × ℚ), (∀ t ∈ ts, t.1 < n ∧ t.2.1 < n) →
      ∑ i ∈ Finset.range n, ∑ j ∈ Finset.range n, tripletWeight ts i j
        = (ts.map (fun t => t.2.2)).sum := by
  intro ts
  induction ts with
  | nil =>
    intro _
    simp [tripletWeight]
  | cons t ts ih =>
    intro h
    have ht := h t (List.mem_cons_self t ts)
    have hts := fun x hx => h x (List.mem_cons_of_mem t hx)
    simp only [tripletWeight_cons, Finset.sum_add_distrib]
    rw [ih hts]
    have hinner : ∀ i, (∑ j ∈ Finset.range n,
        (if t.1 = i ∧ t.2.1 = j then t.2.2 else 0))
          = (if t.1 = i then t.2.2 else 0) := by
      intro i
      by_cases hti : t.1 = i
      · simp only [hti, true_and, if_pos rfl]
        rw [Finset.sum_ite_eq]
        exact if_pos (Finset.mem_range.mpr ht.2)
      · simp [hti]
    rw [Finset.sum_congr rfl (fun i _ => hinner i), Finset.sum_ite_eq,
      if_pos (Finset.mem_range.mpr ht.1)]
    simp

/-- Every vertex with `source <= target` contributes two unit triplets, so
the triplet weights sum to twice the number of such vertices. -/
theorem exchangeTriplets_weight_sum :
    ∀ edges : List (ℕ × ℕ), (∀ e ∈ edges, e.1 ≤ e.2) →
      ((exchangeTriplets edges).map (fun t => t.2.2)).sum
        = 2 * (edges.length : ℚ) := by
  intro edges
  induction edges with
  | nil =>
    intro _
    simp [exchangeTriplets]
  | cons e es ih =>
    intro h
    rw [exchangeTriplets_cons, if_pos (h e (List.mem_cons_self e es))]
    simp only [List.map_cons, List.sum_cons, List.length_cons]
    rw [ih (fun x hx => h x (List.mem_cons_of_mem e hx))]
    push_cast
    ring

/-- The triplets built from in-range edges are in range. -/
theorem exchangeTriplets_mem_lt (n : ℕ) :
    ∀ edges : List (ℕ × ℕ), (∀ e ∈ edges, e.1 < n ∧ e.2 < n) →
      ∀ t ∈ exchangeTriplets edges, t.1 < n ∧ t.2.1 < n := by
  intro edges
  induction edges with
  | nil =>
    intro _ t ht
    simp [exchangeTriplets] at ht
  | cons e es ih =>
    intro h t ht
    have he2 := h e (List.mem_cons_self e es)
    have hes := fun x hx => h x (List.mem_cons_of_mem e hx)
    rw [exchangeTriplets_cons] at ht
    by_cases he : e.1 ≤ e.2
    · rw [if_pos he] at ht
      simp only [List.mem_cons] at ht
      rcases ht with h1 | h2 | h3
      · subst h1
        exact ⟨he2.1, he2.2⟩
      · subst h2
        exact ⟨he2.2, he2.1⟩
      · exact ih hes t h3
    · rw [if_neg he] at ht
      exact ih hes t ht

/-- Every position of the all-up state holds the up spin. -/
theorem stateAt_allUp (n i : ℕ) : stateAt (allUp n) i = .up := by
  unfold stateAt allUp
  induction n generalizing i with
  | zero => simp [List.getD]
  | succ k ih =>
    cases i with
    | zero => rfl
    | succ j =>
      simpa [List.replicate_succ] using ih j

/-- Counterexample to C7 as stated: the vertex `(1, 0)` has
`source > target`, so `from_lattice` inserts nothing for it: both coupling
entries are zero and the total energy of the all-up state of this
one-edge lattice is `0`, not `-E·J = -1`. -/
theorem c7_counterexample :
    exchangeTriplets [(1, 0)] = [] ∧
    tripletWeight (exchangeTriplets [(1, 0)]) 1 0 = 0 ∧
    tripletWeight (exchangeTriplets [(1, 0)]) 0 1 = 0 ∧
    exchangeTotalEnergy ⟨2, [(1, 0)]⟩ (allUp 2) = 0 ∧
    exchangeTotalEnergy ⟨2, [(1, 0)]⟩ (allUp 2) ≠ -(1 : ℚ) := by
  have htrip : exchangeTriplets [((1 : ℕ), (0 : ℕ))] = [] := by
    norm_num [exchangeTriplets]
  refine ⟨htrip, ?_, ?_, ?_, ?_⟩ <;>
    norm_num [htrip, tripletWeight, exchangeTotalEnergy, exchangeSiteEnergy,
      allUp]

/-- C7 (amended): `Exchange::from_lattice` inserts, for every lattice edge
with `source ≤ target`, the two symmetric triplets each with the hard-coded
weight `1.0` (the Rust constructor takes no exchange constant), and skips
edges with `source > target`; the resulting coupling matrix is symmetric,
and on the all-up Ising state of a lattice whose `E` edges all satisfy
`source ≤ target` the total energy is `-E` (that is, `-E·J` with `J = 1`). -/
theorem c7_exchange_from_lattice_amended (L : ModelLattice)
    (hord : ∀ e ∈ L.edges, e.1 ≤ e.2)
    (hrange : ∀ e ∈ L.edges, e.1 < L.nsites ∧ e.2 < L.nsites) :
    (∀ i j, tripletWeight (exchangeTriplets L.edges) i j
        = tripletWeight (exchangeTriplets L.edges) j i) ∧
    exchangeTotalEnergy L (allUp L.nsites) = -(L.edges.length : ℚ) := by
  constructor
  · exact fun i j => tripletWeight_symm L.edges i j
  · unfold exchangeTotalEnergy
    rw [show (allUp L.nsites).length = L.nsites from by simp [allUp]]
    have hsite : ∀ i ∈ Finset.range L.nsites,
        exchangeSiteEnergy L (allUp L.nsites) i
          = -(∑ j ∈ Finset.range L.nsites,
              tripletWeight (exchangeTriplets L.edges) i j) := by
      intro i hi
      unfold exchangeSiteEnergy
      rw [if_pos (Finset.mem_range.mp hi)]
      simp [stateAt_allUp, IsingSpin.dot]
    rw [Finset.sum_congr rfl hsite, Finset.sum_neg_distrib,
      sum_grid_tripletWeight L.nsites (exchangeTriplets L.edges)
        (exchangeTriplets_mem_lt L.nsites L.edges hrange),
      exchangeTriplets_weight_sum L.edges hord]
    ring

/-- Witness for C7 (amended) on the two-site lattice with the single edge
`(0, 1)`. -/
theorem c7_exchange_from_lattice_amended_witness :
    (∀ e ∈ [((0 : ℕ), (1 : ℕ))], e.1 ≤ e.2) ∧
    exchangeTotalEnergy ⟨2, [(0, 1)]⟩ (allUp 2)
      = -(([((0 : ℕ), (1 : ℕ))].length : ℚ)) :=
  ⟨by decide,
    (c7_exchange_from_lattice_amended ⟨2, [(0, 1)]⟩ (by decide) (by decide)).2⟩

/-- Writing back the spin already stored at an in-range position is the
identity; this is the restoration step of a rejected Metropolis trial. -/
theorem set_getD_self {α : Type} (l : List α) (i : ℕ) (d : α)
    (h : i < l.length) : l.set i (l.getD i d) = l := by
  induction l generalizing i with
  | nil => simp at h
  | cons a as ih =>
    cases i with
    | zero => simp [List.getD]
    | succ j =>
      simp only [List.set_cons_succ, List.getD_cons_succ]
      rw [ih j (by simpa using h)]

/-- Counterexample to C3 as stated: on the empty state, all three `step`
implementations panic — `Uniform::new(0, 0)` fails and `expect` unwraps the
failure — so `step` is not total on every state. -/
theorem c3_counterexample :
    metropolisStep (fun _ _ => (0 : ℝ)) 1 (fun _ => 0) (fun _ => IsingSpin.up)
        (fun _ => 0) ([] : List IsingSpin) = none ∧
    metropolisFlipStep IsingSpin.flip (fun _ _ => (0 : ℝ)) 1 (fun _ => 0)
        (fun _ => 0) ([] : List IsingSpin) = none ∧
    wolffStep [] 1 0 (fun _ => 0) ([] : List IsingSpin) = none := by
  refine ⟨?_, ?_, ?_⟩ <;>
    simp [metropolisStep, metropolisFlipStep, wolffStep, uniformNew]

/-- C3 (amended): every integrator's `step` returns a state for every
nonempty state — and, for Wolff, a neighbor list matching the state with
in-range indices — for every thermostat, hamiltonian and draw stream; only
the empty state makes `step` panic. -/
theorem c3_integrators_total_amended {S : Type} [Inhabited S]
    (energy : List S → ℕ → ℝ) (temperature : ℝ) (siteDraws : ℕ → ℕ)
    (proposalDraws : ℕ → S) (acceptDraws : ℕ → ℝ) (flip : S → S) (st : List S)
    (neighbors : List (List ℕ)) (seedDraw : ℕ) (clusterDraws : ℕ → ℝ)
    (ist : List IsingSpin)
    (hst : st ≠ []) (hist : ist ≠ [])
    (hlen : neighbors.length = ist.length)
    (hrange : ∀ l ∈ neighbors, ∀ j ∈ l, j < ist.length) :
    (metropolisStep energy temperature siteDraws proposalDraws acceptDraws st).isSome ∧
    (metropolisFlipStep flip energy temperature siteDraws acceptDraws st).isSome ∧
    (wolffStep neighbors temperature seedDraw clusterDraws ist).isSome := by
  have h1 : 0 < st.length := List.length_pos.mpr hst
  have h2 : 0 < ist.length := List.length_pos.mpr hist
  refine ⟨?_, ?_, ?_⟩ <;>
    simp [metropolisStep, metropolisFlipStep, wolffStep, uniformNew, h1, h2]

/-- Witness for C3 (amended) on the one-spin state. -/
theorem c3_integrators_total_amended_witness :
    ([IsingSpin.up] ≠ ([] : List IsingSpin)) ∧
    (metropolisStep (fun _ _ => (0 : ℝ)) 1 (fun _ => 0) (fun _ => IsingSpin.down)
        (fun _ => 0) [IsingSpin.up]).isSome ∧
    (metropolisFlipStep IsingSpin.flip (fun _ _ => (0 : ℝ)) 1 (fun _ => 0)
        (fun _ => 0) [IsingSpin.up]).isSome ∧
    (wolffStep [[]] 1 0 (fun _ => 0) [IsingSpin.up]).isSome := by
  have h := c3_integrators_total_amended (fun _ _ => (0 : ℝ)) 1 (fun _ => 0)
    (fun _ => IsingSpin.down) (fun _ => 0) IsingSpin.flip [IsingSpin.up]
    [[]] 0 (fun _ => 0) [IsingSpin.up]
    (by simp) (by simp) (by simp) (by simp)
  exact ⟨by simp, h.1, h.2.1, h.2.2⟩

/-- C5: one Metropolis trial at an in-range site `i` with acceptance draw
`a < 1` keeps the proposed spin whenever the local energy difference
`Δ = E₁ - E₀` satisfies `Δ ≤ 0`; when `Δ > 0` it keeps the proposed spin
exactly when `a < exp(-Δ/T)` and otherwise restores the old spin (the state
returns to exactly what it was); and no site other than `i` is modified. -/
theorem c5_metropolis_trial {S : Type} [Inhabited S]
    (energy : List S → ℕ → ℝ) (temperature : ℝ) (i : ℕ) (proposal : S)
    (accept : ℝ) (st : List S) (hi : i < st.length) (ha : accept < 1) :
    (energy (st.set i proposal) i - energy st i ≤ 0 →
      metropolisTrial energy temperature i proposal accept st = st.set i proposal) ∧
    (0 < energy (st.set i proposal) i - energy st i →
      (accept < Real.exp (-(energy (st.set i proposal) i - energy st i) / temperature) →
        metropolisTrial energy temperature i proposal accept st = st.set i proposal) ∧
      (¬ accept < Real.exp (-(energy (st.set i proposal) i - energy st i) / temperature) →
        metropolisTrial energy temperature i proposal accept st = st)) ∧
    (∀ j, j ≠ i →
      (metropolisTrial energy temperature i proposal accept st)[j]? = st[j]?) := by
  refine ⟨?_, ?_, ?_⟩
  · intro hdelta
    simp only [metropolisTrial]
    by_cases hneg : energy (st.set i proposal) i - energy st i < 0
    · rw [if_pos hneg]
    · have hcond : accept < Real.exp (-(energy (st.set i proposal) i
          - energy st i) / temperature) := by
        have hz : energy (st.set i proposal) i - energy st i = 0 :=
          le_antisymm hdelta (not_lt.mp hneg)
        rw [hz]
        simpa using ha
      rw [if_neg hneg, if_pos hcond]
  · intro hpos
    have hneg : ¬ energy (st.set i proposal) i - energy st i < 0 := by linarith
    simp only [metropolisTrial]
    constructor
    · intro hacc
      rw [if_neg hneg, if_pos hacc]
    · intro hacc
      rw [if_neg hneg, if_neg hacc, List.set_set]
      exact set_getD_self st i default hi
  · intro j hj
    have hji : i ≠ j := fun hh => hj hh.symm
    simp only [metropolisTrial]
    by_cases h1 : energy (st.set i proposal) i - energy st i < 0
    · rw [if_pos h1, List.getElem?_set_ne hji]
    · by_cases h2 : accept < Real.exp (-(energy (st.set i proposal) i
          - energy st i) / temperature)
      · rw [if_neg h1, if_pos h2, List.getElem?_set_ne hji]
      · rw [if_neg h1, if_neg h2, List.set_set, List.getElem?_set_ne hji]

/-- Witness for C5: a trial with constant energy (`Δ = 0`), draw `1/2 < 1`,
on the one-spin up state, keeps the proposed down spin. -/
theorem c5_metropolis_trial_witness :
    ((0 : ℕ) < ([IsingSpin.up] : List IsingSpin).length) ∧ ((1 : ℝ)/2 < 1) ∧
    metropolisTrial (fun _ _ => (0 : ℝ)) 1 0 IsingSpin.down (1/2) [IsingSpin.up]
      = [IsingSpin.down] := by
  refine ⟨by simp, by norm_num, ?_⟩
  have h := (c5_metropolis_trial (fun _ _ => (0 : ℝ)) 1 0 IsingSpin.down (1/2)
    [IsingSpin.up] (by simp) (by norm_num)).1 (by norm_num)
  simpa using h

/-- Counterexample to C6 as stated: the source's `rand` can emit the spin
`(0, 0, -1)` (from the normal draws `(0, 0, -1)`), but an accepted round of
Marsaglia sphere-point picking never emits a spin with third component
`-1`, since `1 - 2s > -1` whenever `s = u1² + u2² < 1`; so `rand` is not
Marsaglia's procedure. -/
theorem c6_counterexample :
    heisenbergRand 0 0 (-1) = (0, 0, -1) ∧
    ¬ ∃ u1 u2 : ℝ, marsagliaAccepts u1 u2 ∧ marsagliaSpin u1 u2 = (0, 0, -1) := by
  constructor
  · unfold heisenbergRand
    norm_num [Real.sqrt_one]
  · rintro ⟨u1, u2, hacc, heq⟩
    unfold marsagliaSpin at heq
    have h3 := congrArg (fun v : ℝ × ℝ × ℝ => v.2.2) heq
    simp only at h3
    unfold marsagliaAccepts at hacc
    linarith

/-- C6 (amended): `HeisenbergSpin::rand` does not use Marsaglia rejection;
it draws three standard normal samples `(x, y, z)`, returns `up` when
`x² + y² + z² = 0`, and otherwise returns `(x, y, z)` scaled by
`1/√(x² + y² + z²)` — a unit spin positively proportional to the draws. -/
theorem c6_heisenberg_rand_amended (x y z : ℝ) :
    (x * x + y * y + z * z = 0 → heisenbergRand x y z = (0, 0, 1)) ∧
    (x * x + y * y + z * z ≠ 0 →
      normSq (heisenbergRand x y z) = 1 ∧
      heisenbergRand x y z
        = (x / Real.sqrt (x * x + y * y + z * z),
           y / Real.sqrt (x * x + y * y + z * z),
           z / Real.sqrt (x * x + y * y + z * z))) := by
  constructor
  · intro h
    simp [heisenbergRand, h]
  · intro h
    have hnn : 0 ≤ x * x + y * y + z * z := by
      nlinarith [sq_nonneg x, sq_nonneg y, sq_nonneg z]
    have hpos : 0 < x * x + y * y + z * z := lt_of_le_of_ne hnn (Ne.symm h)
    have hs : 0 < Real.sqrt (x * x + y * y + z * z) := Real.sqrt_pos.mpr hpos
    have hsq : Real.sqrt (x * x + y * y + z * z)
        * Real.sqrt (x * x + y * y + z * z) = x * x + y * y + z * z :=
      Real.mul_self_sqrt hnn
    constructor
    · simp only [heisenbergRand, if_neg h, normSq]
      field_simp
    · simp only [heisenbergRand, if_neg h]
      simp [div_eq_mul_inv]

/-- Witness for C6 (amended) at the normal draws `(3, 4, 0)`. -/
theorem c6_heisenberg_rand_amended_witness :
    ((3 : ℝ) * 3 + 4 * 4 + 0 * 0 ≠ 0) ∧ normSq (heisenbergRand 3 4 0) = 1 :=
  ⟨by norm_num, ((c6_heisenberg_rand_amended 3 4 0).2 (by norm_num)).1⟩
